import Mathlib

/-!
Verification of the PubMed article-discovery pipeline (`pubmed_summary.py`).

Shallow embedding conventions:
* Timestamps are integers (one unit = one day).  The Python code stores
  `datetime.now().isoformat()` strings and compares them with `>`; on
  ISO-8601 strings of a fixed clock this lexicographic order coincides with
  chronological order, so an ordered integer clock is an order-isomorphic
  model.  `timedelta(days=90)` becomes the integer `90`.
* The persisted history file (`sent_articles_history.json`) is modelled by
  `StoreState`: the file can be absent (`missing`), present but not valid
  JSON (`malformed`), or a JSON object mapping PMID strings to timestamps
  (`valid`, an association list in file order).
* Python exceptions are modelled with `Except Unit`.
* XML access via ElementTree: `find` returning an element-or-None is an
  outer `Option`, and the element's `.text` (which is `None` for an empty
  element) is an inner `Option String`.  A Python f-string renders the
  value `None` as the string `"None"`, captured by `pyFmt`.
-/

/-- State of the persisted history file read/written by `HistoryManager`. -/
inductive StoreState where
  | missing : StoreState
  | malformed : StoreState
  | valid : List (String × Int) → StoreState
deriving DecidableEq, Repr

/-- Statistics record returned by `HistoryManager.get_stats`. -/
structure Stats where
  totalSent : Nat
  oldestDate : Option Int
  newestDate : Option Int
deriving DecidableEq, Repr

/-- Embeds `HistoryManager.load_history`: read the persisted mapping, drop
entries whose date is not strictly newer than `now - 90` days, and return the
set of remaining keys; a missing file or a JSON decoding error yields the
empty set. -/
def loadHistory (s : StoreState) (now : Int) : List String :=
  match s with
  | StoreState.missing => []
  | StoreState.malformed => []
  | StoreState.valid m =>
      ((m.filter (fun e => decide (e.2 > now - 90))).map Prod.fst)

/-- Embeds one Python dict assignment `history_data[pmid] = date` on the
association list: every existing entry under the key is overwritten in place,
and an absent key is appended at the end. -/
def setKey (m : List (String × Int)) (k : String) (v : Int) : List (String × Int) :=
  if m.any (fun e => decide (e.1 = k)) then
    m.map (fun e => if e.1 = k then (k, v) else e)
  else
    m ++ [(k, v)]

/-- Embeds `HistoryManager.add_sent_articles`: re-read the persisted mapping
(treating a missing or unreadable file as the empty dict), insert every given
pmid with the current date, prune entries whose date is not strictly newer
than `now - 90` days, and rewrite the store. -/
def addSentArticles (s : StoreState) (pmids : List String) (now : Int) : StoreState :=
  let historyData : List (String × Int) :=
    match s with
    | StoreState.valid m => m
    | _ => []
  let inserted := pmids.foldl (fun m pmid => setKey m pmid now) historyData
  StoreState.valid (inserted.filter (fun e => decide (e.2 > now - 90)))

/-- Embeds `HistoryManager.get_stats`: a missing file yields the zero record;
a present but non-JSON file makes `json.load` raise (there is no handler in
`get_stats`, so the exception propagates); otherwise the raw, unpruned
mapping is summarised. -/
def getStats (s : StoreState) : Except Unit Stats :=
  match s with
  | StoreState.missing => Except.ok ⟨0, none, none⟩
  | StoreState.malformed => Except.error ()
  | StoreState.valid m =>
      Except.ok ⟨m.length, (m.map Prod.snd).min?, (m.map Prod.snd).max?⟩

/-- Raw entry list persisted by a store (the committed stores are always
`valid`, so this is only used on them). -/
def storeEntries (s : StoreState) : List (String × Int) :=
  match s with
  | StoreState.valid m => m
  | _ => []

/-- Embeds the module-level `JOURNAL_ABBREVIATIONS` dict in insertion order. -/
def JOURNAL_ABBREVIATIONS : List (String × String) :=
  [("International Journal of Radiation Oncology Biology Physics", "Int J Radiat Oncol Biol Phys"),
   ("Radiotherapy and Oncology", "Radiother Oncol"),
   ("Journal of Radiation Research", "J Radiat Res"),
   ("Radiation Oncology", "Radiat Oncol"),
   ("Clinical and Translational Radiation Oncology", "Clin Transl Radiat Oncol"),
   ("Practical Radiation Oncology", "Pract Radiat Oncol"),
   ("Advances in Radiation Oncology", "Adv Radiat Oncol"),
   ("International Journal of Radiation Biology", "Int J Radiat Biol"),
   ("Radiation Research", "Radiat Res"),
   ("Medical Physics", "Med Phys"),
   ("Physics in Medicine and Biology", "Phys Med Biol"),
   ("Strahlentherapie und Onkologie", "Strahlenther Onkol"),
   ("Journal of Applied Clinical Medical Physics", "J Appl Clin Med Phys"),
   ("Cancer/Radiotherapie", "Cancer Radiother"),
   ("Seminars in Radiation Oncology", "Semin Radiat Oncol"),
   ("Brachytherapy", "Brachytherapy"),
   ("Reports of Practical Oncology and Radiotherapy", "Rep Pract Oncol Radiother"),
   ("Journal of Radiation Oncology", "J Radiat Oncol"),
   ("Radiation and Environmental Biophysics", "Radiat Environ Biophys"),
   ("Radiation Protection Dosimetry", "Radiat Prot Dosimetry")]

/-- Checks whether the first list is an initial segment of the second. -/
def leadMatch : List Char → List Char → Bool
  | [], _ => true
  | _ :: _, [] => false
  | a :: as, b :: bs => a == b && leadMatch as bs

/-- Checks whether `needle` occurs contiguously inside `hay`, as Python's
`needle in hay` does on strings. -/
def subSearch (needle : List Char) : List Char → Bool
  | [] => leadMatch needle []
  | c :: t => leadMatch needle (c :: t) || subSearch needle t

/-- Character list of a string lowercased, embedding Python's `.lower()`
(the table keys compared through it are ASCII). -/
def lowerChars (s : String) : List Char :=
  s.data.map Char.toLower

/-- Embeds `get_journal_abbreviation`.  The argument is the `.text` of the
`Journal/Title` element or the fallback, so it may be Python `None`: the
exact dict lookup then misses and the substring loop raises
`AttributeError` on `None.lower()` (modelled as `Except.error`), which the
caller's bare `except` turns into an unparsable record. -/
def getJournalAbbreviation (journalName : Option String) : Except Unit String :=
  match JOURNAL_ABBREVIATIONS.find? (fun e => decide (some e.1 = journalName)) with
  | some e => Except.ok e.2
  | none =>
    match journalName with
    | none => Except.error ()
    | some name =>
      match JOURNAL_ABBREVIATIONS.find?
          (fun e => subSearch (lowerChars e.1) (lowerChars name)) with
      | some e => Except.ok e.2
      | none => Except.ok name

/-- Renders a possibly-`None` Python string the way an f-string does. -/
def pyFmt : Option String → String
  | some s => s
  | none => "None"

/-- One `AbstractText` element: its text and its optional `Label` attribute. -/
structure AbsSection where
  text : Option String
  label : Option String
deriving DecidableEq, Repr

/-- One `Author` element: the optional `LastName` and `ForeName` child
elements, each carrying optional text. -/
structure RawAuthor where
  lastName : Option (Option String)
  foreName : Option (Option String)
deriving DecidableEq, Repr

/-- The `PubDate` element: optional `Year`/`Month`/`Day` child elements,
each carrying optional text. -/
structure RawPubDate where
  year : Option (Option String)
  month : Option (Option String)
  day : Option (Option String)
deriving DecidableEq, Repr

/-- One `ArticleId` element: its `IdType` attribute and its text. -/
structure ArticleId where
  idType : Option String
  text : Option String
deriving DecidableEq, Repr

/-- One raw `PubmedArticle` record, restricted to the paths the parser
queries: `.//PMID`, `.//ArticleTitle`, `.//AbstractText`, `.//Journal/Title`,
`.//Author`, `.//PubDate` and `.//ArticleId`. -/
structure RawArticle where
  pmid : Option (Option String)
  title : Option (Option String)
  abstractSections : List AbsSection
  journalTitle : Option (Option String)
  authors : List RawAuthor
  pubDate : Option RawPubDate
  articleIds : List ArticleId
deriving DecidableEq, Repr

/-- The normalized article dict produced by `_parse_article_element`.
`summary` is absent (`none`) until the summarizer fills it in. -/
structure Article where
  pmid : Option String
  title : Option String
  abstract : String
  authors : String
  journal : String
  pubDate : String
  doi : Option String
  url : String
  summary : Option (List String)
deriving DecidableEq, Repr

/-- Embeds the `month_map` table of `_extract_pub_date`. -/
def monthMap : List (String × String) :=
  [("Jan", "01"), ("Feb", "02"), ("Mar", "03"), ("Apr", "04"),
   ("May", "05"), ("Jun", "06"), ("Jul", "07"), ("Aug", "08"),
   ("Sep", "09"), ("Oct", "10"), ("Nov", "11"), ("Dec", "12")]

/-- Embeds the local `year_str` of `_extract_pub_date`: the `Year` element's
text, or `"2024"` when the element is missing. -/
def yearField (d : RawPubDate) : Option String :=
  match d.year with
  | some t => t
  | none => some "2024"

/-- Embeds the local `month_str` of `_extract_pub_date` before the table
lookup: the `Month` element's text, or `"01"` when the element is missing. -/
def rawMonthField (d : RawPubDate) : Option String :=
  match d.month with
  | some t => t
  | none => some "01"

/-- Embeds the local `day_str` of `_extract_pub_date`: the `Day` element's
text, or `"01"` when the element is missing. -/
def dayField (d : RawPubDate) : Option String :=
  match d.day with
  | some t => t
  | none => some "01"

/-- Embeds the `month_map` rewrite of `_extract_pub_date`: a month text that
is a key of the table is replaced by its two-digit value (a Python `None`
month is not a key and passes through). -/
def monthField (d : RawPubDate) : Option String :=
  match rawMonthField d with
  | some ms =>
    match monthMap.find? (fun e => decide (e.1 = ms)) with
    | some e => some e.2
    | none => some ms
  | none => none

/-- Embeds `_extract_pub_date`: a missing `PubDate` element yields the fixed
fallback string; otherwise the `Year`/`Month`/`Day` texts (with element-level
fallbacks `"2024"`/`"01"`/`"01"`, and the month text passed through
`month_map` when it is a key) are interpolated into `"{y}/{m}/{d}"`. -/
def extractPubDate (pd : Option RawPubDate) : String :=
  match pd with
  | none => "日付不明"
  | some d => pyFmt (yearField d) ++ "/" ++ pyFmt (monthField d) ++ "/" ++ pyFmt (dayField d)

/-- Embeds the abstract-assembly loop of `_parse_article_element`: for each
`AbstractText` element, a truthy (present and non-empty) text is appended
bare, and additionally, whenever a `Label` attribute exists, the rendering
`"{label}: {text or ''}"` is appended. -/
def abstractParts (secs : List AbsSection) : List String :=
  secs.foldl (fun acc sec =>
    let acc1 :=
      match sec.text with
      | some t => if t = "" then acc else acc ++ [t]
      | none => acc
    match sec.label with
    | some lab => acc1 ++ [lab ++ ": " ++ (sec.text.getD "")]
    | none => acc1) []

/-- Embeds the author-name loop of `_parse_article_element`: only the first
three `Author` elements are examined, and each contributes
`"{forename.text} {lastname.text}"` when both child elements exist. -/
def authorNames (auths : List RawAuthor) : List String :=
  (auths.take 3).foldl (fun acc a =>
    match a.lastName, a.foreName with
    | some ln, some fn => acc ++ [pyFmt fn ++ " " ++ pyFmt ln]
    | _, _ => acc) []

/-- Embeds the author display string of `_parse_article_element`: an
`"et al."` marker is appended when more than three `Author` elements exist,
and an empty assembled list falls back to the fixed unknown-author string. -/
def authorDisplay (auths : List RawAuthor) : String :=
  let authors := authorNames auths
  let authors := if auths.length > 3 then authors ++ ["et al."] else authors
  if authors = [] then "著者不明" else ", ".intercalate authors

/-- Embeds the DOI loop of `_parse_article_element`: the text of the first
`ArticleId` whose `IdType` attribute equals `"doi"`, or the initial empty
string when none matches. -/
def doiOf (ids : List ArticleId) : Option String :=
  match ids.find? (fun i => decide (i.idType = some "doi")) with
  | some i => i.text
  | none => some ""

/-- Embeds `_parse_article_element`.  A record without a `PMID` element is
unparsable (`None`); a `Journal/Title` element that exists but has no text
makes `get_journal_abbreviation` raise, which the surrounding `try/except`
also turns into `None`.  All other fields degrade to fallbacks. -/
def parseArticleElement (rec : RawArticle) : Option Article :=
  match rec.pmid with
  | none => none
  | some pmidText =>
    match getJournalAbbreviation
        (match rec.journalTitle with
         | some t => t
         | none => some "雑誌名不明") with
    | Except.error _ => none
    | Except.ok journal =>
      some
        { pmid := pmidText
          title :=
            match rec.title with
            | some t => t
            | none => some "タイトルなし"
          abstract := " ".intercalate (abstractParts rec.abstractSections)
          authors := authorDisplay rec.authors
          journal := journal
          pubDate := extractPubDate rec.pubDate
          doi := doiOf rec.articleIds
          url := "https://pubmed.ncbi.nlm.nih.gov/" ++ pyFmt pmidText ++ "/"
          summary := none }

/-- Claim-side rendering of one abstract section, used to state the amended
form of the abstract-assembly claim: the bare text when truthy, followed by
the labeled rendering when a label exists. -/
def specRenderSection (sec : AbsSection) : List String :=
  (match sec.text with
   | some t => if t = "" then [] else [t]
   | none => []) ++
  (match sec.label with
   | some lab => [lab ++ ": " ++ (sec.text.getD "")]
   | none => [])

/-- Fixed bullets returned by `summarize_abstract` for an absent or
too-short abstract, without calling the model. -/
def insufficientFallback : List String :=
  ["・要約対象のアブストラクトが不十分です",
   "・原文をご確認ください",
   "・詳細情報は論文本文を参照",
   "・PubMedリンクから全文アクセス可能"]

/-- Fixed bullets returned by `summarize_abstract` when the model call
raises. -/
def errorFallback : List String :=
  ["・AIによる要約生成に失敗しました",
   "・原文をご確認ください",
   "・一時的なエラーの可能性があります",
   "・後ほど再試行してください"]

/-- Padding bullet appended when the model returned fewer than four
bullet lines. -/
def fillerPoint : String := "・詳細はアブストラクトを参照してください"

/-- Prompt string built by `summarize_abstract`; the abstract is truncated
to 3000 characters. -/
def promptFor (abstract title : String) : String :=
  "\n        以下の医学論文のアブストラクトを読んで、放射線腫瘍学の専門家向けに、重要なポイントを日本語で4つの箇条書きで日本語に要約してください。\n        \n        論文タイトル: "
  ++ title
  ++ "\n        \n        アブストラクト:\n        "
  ++ abstract.take 3000
  ++ "\n        \n        出力形式（必ず以下の形式で4点出力）:\n        ・[ポイント1]\n        ・[ポイント2]\n        ・[ポイント3]\n        ・[ポイント4]\n        "

/-- Embeds the `points` comprehension of `summarize_abstract`: the stripped
response lines that start with the bullet character. -/
def bulletPoints (text : String) : List String :=
  ((text.trim.splitOn "\n").map (fun l => l.trim)).filter (fun l => l.startsWith "・")

/-- Embeds the final padding/truncation of `summarize_abstract`: at least
four points are truncated to four, fewer are padded with `fillerPoint` (the
`while` loop) before the `[:4]` slice. -/
def fourPoints (points : List String) : List String :=
  if points.length ≥ 4 then points.take 4
  else (points ++ List.replicate (4 - points.length) fillerPoint).take 4

/-- Embeds `AIReporter.summarize_abstract`.  The external Gemini call is the
`model` parameter; an exception from it is `Except.error`. -/
def summarizeAbstract (model : String → Except Unit String)
    (abstract title : String) : List String :=
  if abstract = "" ∨ abstract.length < 50 then
    insufficientFallback
  else
    match model (promptFor abstract title) with
    | Except.error _ => errorFallback
    | Except.ok text => fourPoints (bulletPoints text)

/-- Embeds the batching of `fetch_article_details`: `range(0, len, 20)`
slicing partitions the pmid list into chunks of at most 20. -/
def chunked : List String → List (List String)
  | [] => []
  | x :: xs => ((x :: xs).take 20) :: chunked ((x :: xs).drop 20)
termination_by l => l.length
decreasing_by simp [List.length_drop]; omega

/-- Embeds one iteration of the dedup loop of `fetch_article_details`: the
Python dict keyed by `article['pmid']` keeps the first occurrence and
appends new keys in insertion order. -/
def dedupStep (acc : List (Option String × Article)) (article : Article) :
    List (Option String × Article) :=
  if acc.any (fun p => decide (p.1 = article.pmid)) then acc
  else acc ++ [(article.pmid, article)]

/-- Embeds the dedup pass of `fetch_article_details`:
`list(unique_articles.values())` in dict insertion order. -/
def fetchDedup (articles : List Article) : List Article :=
  (articles.foldl dedupStep []).map Prod.snd

/-- Embeds the per-record loop inside one chunk of `fetch_article_details`:
each parsable record is appended and its title is then sliced for the log
line, which raises `TypeError` when the parsed title is Python `None`
(only `ET.ParseError` is handled, so that exception escapes). -/
def appendParsed : List RawArticle → List Article → Except Unit (List Article)
  | [], acc => Except.ok acc
  | r :: rs, acc =>
    match parseArticleElement r with
    | none => appendParsed rs acc
    | some article =>
      match article.title with
      | none => Except.error ()
      | some _ => appendParsed rs (acc ++ [article])

/-- Embeds the chunk loop of `fetch_article_details`: `respond` is the
external retrieval call combined with `ET.fromstring`, so `Except.error`
is a payload-level parse failure, which is caught and skips only that
chunk's contribution. -/
def fetchLoop (respond : List String → Except Unit (List RawArticle)) :
    List (List String) → List Article → Except Unit (List Article)
  | [], acc => Except.ok acc
  | batch :: rest, acc =>
    match respond batch with
    | Except.error _ => fetchLoop respond rest acc
    | Except.ok recs =>
      match appendParsed recs acc with
      | Except.error e => Except.error e
      | Except.ok acc2 => fetchLoop respond rest acc2

/-- Embeds `PubMedFetcher.fetch_article_details`: empty input short-circuits,
otherwise the chunk loop runs and the result is deduplicated by pmid. -/
def fetchArticleDetails (pmidList : List String)
    (respond : List String → Except Unit (List RawArticle)) :
    Except Unit (List Article) :=
  if pmidList = [] then Except.ok []
  else
    match fetchLoop respond (chunked pmidList) [] with
    | Except.error e => Except.error e
    | Except.ok articles => Except.ok (fetchDedup articles)

/-- Claim-side contribution of one chunk: the parsed records of a successful
payload, and nothing for a chunk whose payload fails to parse. -/
def chunkArticles (respond : List String → Except Unit (List RawArticle))
    (batch : List String) : List Article :=
  match respond batch with
  | Except.error _ => []
  | Except.ok recs => recs.filterMap parseArticleElement

/-- Claim-side formulation of first-occurrence deduplication: keep each
article whose pmid has not appeared before, in first-seen order. -/
def firstSeenDedup : List Article → List Article
  | [] => []
  | a :: rest =>
      a :: firstSeenDedup (rest.filter (fun b => decide (b.pmid ≠ a.pmid)))
termination_by l => l.length
decreasing_by
  simp only [List.length_cons]
  exact Nat.lt_succ_of_le (List.length_filter_le _ _)

/-- Renders an `article['pmid']` value as the JSON object key written by
`json.dump` (a Python `None` key is serialized as `"null"`). -/
def pyStrKey : Option String → String
  | some s => s
  | none => "null"

/-- Observable outcome of one `main()` run: whether it finished without an
exception, the final history store, the article lists handed to
`send_summary`, the pmid batches handed to `add_sent_articles`, the articles
processed in the run, and the filtered pmid list that was requested. -/
structure RunResult where
  ok : Bool
  finalStore : StoreState
  notifications : List (List Article)
  committed : List (List String)
  processed : List Article
  requested : List String
deriving DecidableEq, Repr

/-- Embeds the bootstrap step of `main()`: if no history file exists, an
empty-mapping file is written before the pipeline proceeds. -/
def bootstrapStore (s : StoreState) : StoreState :=
  if s = StoreState.missing then StoreState.valid [] else s

/-- Embeds the history filtering inside `search_articles`: the identifiers
returned by the external search minus those the `HistoryManager` loaded at
run start reports as already sent (`is_sent`). -/
def newIds (s : StoreState) (t0 : Int) (searchIds : List String) : List String :=
  searchIds.filter (fun q => !(decide (q ∈ loadHistory s t0)))

/-- Embeds the summarization loop of `main()`: each article's `summary` key
is filled with the summarizer's bullets. -/
def summarizedArticles (model : String → Except Unit String)
    (fetched : List Article) : List Article :=
  fetched.map (fun a =>
    { a with summary := some (summarizeAbstract model a.abstract (pyFmt a.title)) })

/-- Embeds `main()`.  `t0` is the run's clock, `searchIds` the identifier
list returned by the external search, `respond` the retrieval collaborator,
`model` the summarization collaborator, and `notifyOk` whether the SMTP send
succeeds (`send_summary` re-raises on failure).  Steps in source order:
history load, `get_stats` (which propagates a JSON parse error), bootstrap of
a missing store, search with history filtering, the early no-novel return
that still sends an empty notification, fetch, summarize, notify, and the
commit that only happens after a successful notification with a non-empty
article list. -/
def runMain (s : StoreState) (t0 : Int) (searchIds : List String)
    (respond : List String → Except Unit (List RawArticle))
    (model : String → Except Unit String)
    (notifyOk : Bool) : RunResult :=
  match getStats s with
  | Except.error _ => ⟨false, s, [], [], [], []⟩
  | Except.ok _ =>
    if newIds s t0 searchIds = [] then
      ⟨notifyOk, bootstrapStore s, [[]], [], [], newIds s t0 searchIds⟩
    else
      match fetchArticleDetails (newIds s t0 searchIds) respond with
      | Except.error _ => ⟨false, bootstrapStore s, [], [], [], newIds s t0 searchIds⟩
      | Except.ok fetched =>
        let articles := summarizedArticles model fetched
        if notifyOk then
          if articles = [] then
            ⟨true, bootstrapStore s, [articles], [], articles, newIds s t0 searchIds⟩
          else
            ⟨true,
             addSentArticles (bootstrapStore s) (articles.map (fun a => pyStrKey a.pmid)) t0,
             [articles], [articles.map (fun a => pyStrKey a.pmid)], articles,
             newIds s t0 searchIds⟩
        else
          ⟨false, bootstrapStore s, [articles], [], articles, newIds s t0 searchIds⟩

/-- Concrete record with one labeled abstract section, text `"T"` and label
`"L"`. -/
def recAbstractCex : RawArticle :=
  { pmid := some (some "1")
    title := none
    abstractSections := [⟨some "T", some "L"⟩]
    journalTitle := none
    authors := []
    pubDate := none
    articleIds := [] }

/-- Concrete record with no `PubDate` element. -/
def recPubDateCex : RawArticle :=
  { pmid := some (some "7")
    title := none
    abstractSections := []
    journalTitle := none
    authors := []
    pubDate := none
    articleIds := [] }

/-- Concrete record with four `Author` elements, none of which has the
`LastName`/`ForeName` children needed to parse a display name. -/
def recAuthorsCex : RawArticle :=
  { pmid := some (some "8")
    title := none
    abstractSections := []
    journalTitle := none
    authors := List.replicate 4 ⟨none, none⟩
    pubDate := none
    articleIds := [] }

/-- Concrete record with pmid `"9"` and title `"t1"`. -/
def recDupA : RawArticle :=
  { pmid := some (some "9")
    title := some (some "t1")
    abstractSections := []
    journalTitle := none
    authors := []
    pubDate := none
    articleIds := [] }

/-- Concrete record with the same pmid `"9"` but a different title `"t2"`. -/
def recDupB : RawArticle :=
  { pmid := some (some "9")
    title := some (some "t2")
    abstractSections := []
    journalTitle := none
    authors := []
    pubDate := none
    articleIds := [] }

/-- The article parsed from `recDupA`. -/
def artDupA : Article :=
  { pmid := some "9"
    title := some "t1"
    abstract := ""
    authors := "著者不明"
    journal := "雑誌名不明"
    pubDate := "日付不明"
    doi := some ""
    url := "https://pubmed.ncbi.nlm.nih.gov/9/"
    summary := none }

-- Association-list lemmas about `setKey`.

theorem setKey_self_mem (m : List (String × Int)) (k : String) (v : Int) :
    (k, v) ∈ setKey m k v := by
  unfold setKey
  by_cases h : m.any (fun e => decide (e.1 = k))
  · simp only [h, if_true]
    rcases List.any_eq_true.mp h with ⟨e, he, hk⟩
    exact List.mem_map.mpr ⟨e, he, by simp [of_decide_eq_true hk]⟩
  · simp [h]

theorem setKey_key_eq {m : List (String × Int)} {k : String} {v : Int}
    {e : String × Int} (he : e ∈ setKey m k v) (hk : e.1 = k) : e = (k, v) := by
  unfold setKey at he
  by_cases h : m.any (fun e => decide (e.1 = k))
  · simp only [h, if_true] at he
    rcases List.mem_map.mp he with ⟨e', he', heq⟩
    by_cases h' : e'.1 = k
    · simp only [h', if_true] at heq
      exact heq.symm
    · simp only [h', if_false] at heq
      subst heq
      exact absurd hk h'
  · simp only [h, if_false] at he
    rcases List.mem_append.mp he with h' | h'
    · exfalso
      exact h (List.any_eq_true.mpr ⟨e, h', decide_eq_true hk⟩)
    · simpa using h'

theorem setKey_mem_ne {m : List (String × Int)} {k : String} {v : Int}
    {e : String × Int} (hk : e.1 ≠ k) : e ∈ setKey m k v ↔ e ∈ m := by
  unfold setKey
  by_cases h : m.any (fun e => decide (e.1 = k))
  · simp only [h, if_true]
    constructor
    · intro he
      rcases List.mem_map.mp he with ⟨e', he', heq⟩
      by_cases h' : e'.1 = k
      · simp only [h', if_true] at heq
        exact absurd (heq ▸ rfl : e.1 = k) hk
      · simp only [h', if_false] at heq
        subst heq
        exact he'
    · intro he
      exact List.mem_map.mpr ⟨e, he, by simp [hk]⟩
  · simp only [h, if_false]
    constructor
    · intro he
      rcases List.mem_append.mp he with h' | h'
      · exact h'
      · exfalso
        have h2 : e = (k, v) := by simpa using h'
        exact hk (by simp [h2])
    · intro he
      exact List.mem_append.mpr (Or.inl he)

-- Lemmas about the insertion fold performed by `add_sent_articles`.

theorem foldlSetKey_mem_of_notMem {pmids : List String} {m : List (String × Int)}
    {e : String × Int} (he : e ∈ pmids.foldl (fun m pmid => setKey m pmid now) m)
    (hk : e.1 ∉ pmids) : e ∈ m := by
  induction pmids generalizing m with
  | nil => exact he
  | cons p rest ih =>
    have h1 : e.1 ∉ rest := fun h => hk (List.mem_cons_of_mem _ h)
    have h2 : e.1 ≠ p := fun h => hk (h ▸ List.mem_cons_self _ _)
    have := ih (m := setKey m p now) he h1
    exact (setKey_mem_ne h2).mp this

theorem foldlSetKey_mem_of_mem {pmids : List String} {m : List (String × Int)}
    {e : String × Int} (he : e ∈ m) (hk : e.1 ∉ pmids) :
    e ∈ pmids.foldl (fun m pmid => setKey m pmid now) m := by
  induction pmids generalizing m with
  | nil => exact he
  | cons p rest ih =>
    have h1 : e.1 ∉ rest := fun h => hk (List.mem_cons_of_mem _ h)
    have h2 : e.1 ≠ p := fun h => hk (h ▸ List.mem_cons_self _ _)
    exact ih ((setKey_mem_ne h2).mpr he) h1

theorem foldlSetKey_val {pmids : List String} {m : List (String × Int)} {now : Int}
    {e : String × Int} (he : e ∈ pmids.foldl (fun m pmid => setKey m pmid now) m)
    (hk : e.1 ∈ pmids) : e.2 = now := by
  induction pmids generalizing m with
  | nil => exact absurd hk (List.not_mem_nil _)
  | cons p rest ih =>
    by_cases h1 : e.1 ∈ rest
    · exact ih (m := setKey m p now) he h1
    · have h2 : e.1 = p := by
        rcases List.mem_cons.mp hk with h | h
        · exact h
        · exact absurd h h1
      have hm : e ∈ setKey m p now :=
        foldlSetKey_mem_of_notMem (m := setKey m p now) he h1
      have := setKey_key_eq hm h2
      simp [this]

theorem foldlSetKey_self_mem {pmids : List String} {m : List (String × Int)} {now : Int}
    {p : String} (hp : p ∈ pmids) :
    (p, now) ∈ pmids.foldl (fun m pmid => setKey m pmid now) m := by
  induction pmids generalizing m with
  | nil => exact absurd hp (List.not_mem_nil _)
  | cons q rest ih =>
    by_cases h1 : p ∈ rest
    · exact ih (m := setKey m q now) h1
    · have h2 : p = q := by
        rcases List.mem_cons.mp hp with h | h
        · exact h
        · exact absurd h h1
      subst h2
      exact foldlSetKey_mem_of_mem (m := setKey m p now) (setKey_self_mem m p now) h1

/-- Loading the ledger at a later clock never reveals more entries: the
pruning cutoff only grows with `now`. -/
theorem loadHistory_antitone {s : StoreState} {t u : Int} (h : t ≤ u)
    {p : String} (hp : p ∉ loadHistory s t) : p ∉ loadHistory s u := by
  intro hu
  apply hp
  cases s with
  | missing => exact absurd hu (List.not_mem_nil p)
  | malformed => exact absurd hu (List.not_mem_nil p)
  | valid m =>
    simp only [loadHistory, List.mem_map] at hu ⊢
    rcases hu with ⟨e, he, rfl⟩
    refine ⟨e, ?_, rfl⟩
    rcases List.mem_filter.mp he with ⟨hem, hdate⟩
    refine List.mem_filter.mpr ⟨hem, ?_⟩
    have := of_decide_eq_true hdate
    exact decide_eq_true (by omega)

/-- C2.  An entry committed at time `T` is reported as seen by every load at
a clock strictly before `T + 90`, is not reported as seen by any load at a
clock strictly after `T + 90`, and every entry surviving the commit is
strictly newer than the 90-day cutoff. -/
theorem committed_entry_retention (s : StoreState) (pmids : List String)
    (p : String) (T t : Int) (hp : p ∈ pmids) :
    (t < T + 90 → p ∈ loadHistory (addSentArticles s pmids T) t) ∧
    (t > T + 90 → p ∉ loadHistory (addSentArticles s pmids T) t) ∧
    (∀ e ∈ storeEntries (addSentArticles s pmids T), e.2 > T - 90) := by
  unfold addSentArticles
  set m0 : List (String × Int) :=
    match s with
    | StoreState.valid m => m
    | _ => [] with hm0
  set inserted := pmids.foldl (fun m pmid => setKey m pmid T) m0 with hins
  refine ⟨?_, ?_, ?_⟩
  · intro ht
    have hmem : (p, T) ∈ inserted := foldlSetKey_self_mem hp
    have hpruned : (p, T) ∈ inserted.filter (fun e => decide (e.2 > T - 90)) :=
      List.mem_filter.mpr ⟨hmem, decide_eq_true (by omega)⟩
    simp only [loadHistory, List.mem_map]
    exact ⟨(p, T), List.mem_filter.mpr ⟨hpruned, decide_eq_true (by omega)⟩, rfl⟩
  · intro ht hmem
    simp only [loadHistory, List.mem_map] at hmem
    rcases hmem with ⟨e, he, hfst⟩
    rcases List.mem_filter.mp he with ⟨he', hlate⟩
    rcases List.mem_filter.mp he' with ⟨heIns, _⟩
    have hval : e.2 = T := foldlSetKey_val heIns (hfst ▸ hp)
    have := of_decide_eq_true hlate
    omega
  · intro e he
    simp only [storeEntries] at he
    rcases List.mem_filter.mp he with ⟨_, hdate⟩
    exact of_decide_eq_true hdate

/-- Witness for `committed_entry_retention` at the spec's boundary clocks:
committing `"200"` at time `0` makes it seen at day `89` and unseen at
day `91`. -/
theorem committed_entry_retention_tests :
    ("200" ∈ loadHistory (addSentArticles (StoreState.valid []) ["200"] 0) 89) ∧
    ("200" ∉ loadHistory (addSentArticles (StoreState.valid []) ["200"] 0) 91) := by
  refine ⟨?_, ?_⟩
  · exact (committed_entry_retention (StoreState.valid []) ["200"] "200" 0 89
      (by decide)).1 (by decide)
  · exact (committed_entry_retention (StoreState.valid []) ["200"] "200" 0 91
      (by decide)).2.1 (by decide)

/-- C10.  A present but malformed history file loads as the empty set while
`get_stats` propagates the JSON parse exception; a missing file gives stats
with a zero count and null oldest/newest dates. -/
theorem malformed_store_load_and_stats :
    (∀ t : Int, loadHistory StoreState.malformed t = []) ∧
    getStats StoreState.malformed = Except.error () ∧
    getStats StoreState.missing = Except.ok ⟨0, none, none⟩ := by
  refine ⟨fun t => rfl, rfl, rfl⟩

-- Inversion of `parseArticleElement` into its per-field helpers.

theorem parse_fields {rec : RawArticle} {art : Article}
    (h : parseArticleElement rec = some art) :
    art.abstract = " ".intercalate (abstractParts rec.abstractSections) ∧
    art.authors = authorDisplay rec.authors ∧
    art.pubDate = extractPubDate rec.pubDate := by
  unfold parseArticleElement at h
  cases hp : rec.pmid with
  | none =>
    rw [hp] at h
    exact absurd h (by simp)
  | some pmidText =>
    rw [hp] at h
    cases hj : getJournalAbbreviation
        (match rec.journalTitle with
         | some t => t
         | none => some "雑誌名不明") with
    | error e =>
      rw [hj] at h
      exact absurd h (by simp)
    | ok j =>
      rw [hj] at h
      simp only [Option.some.injEq] at h
      subst h
      exact ⟨rfl, rfl, rfl⟩

theorem foldl_app_eq_flatten {α β : Type} (g : α → List β) (f : List β → α → List β)
    (hf : ∀ acc x, f acc x = acc ++ g x) :
    ∀ (l : List α) (acc : List β), l.foldl f acc = acc ++ (l.map g).flatten := by
  intro l
  induction l with
  | nil =>
    intro acc
    simp
  | cons x rest ih =>
    intro acc
    rw [List.foldl_cons, hf, ih, List.map_cons, List.flatten_cons, List.append_assoc]

/-- C6 counterexample.  On a record whose abstract is one labeled section
with label `"L"` and text `"T"`, the parser produces `"T L: T"`: the section
is rendered twice (bare text, then labeled), not exactly once as `"L: T"`. -/
theorem labeled_section_rendered_twice :
    (parseArticleElement recAbstractCex).map (fun a => a.abstract) = some "T L: T" ∧
    "T L: T" ≠ " ".intercalate ["L: T"] := by
  refine ⟨by decide, by decide⟩

/-- C6 amended.  Each labeled section with truthy text is rendered twice
(bare text, then `"<Label>: <text>"`); a labeled section with empty text is
rendered only as `"<Label>: "`; an unlabeled truthy text is rendered bare;
the renders are concatenated with a single space in source order. -/
theorem abstract_assembly_amended :
    (∀ secs : List AbsSection,
      abstractParts secs = (secs.map specRenderSection).flatten) ∧
    (∀ rec art, parseArticleElement rec = some art →
      art.abstract = " ".intercalate ((rec.abstractSections.map specRenderSection).flatten)) := by
  have hparts : ∀ secs : List AbsSection,
      abstractParts secs = (secs.map specRenderSection).flatten := by
    intro secs
    unfold abstractParts
    refine Eq.trans (foldl_app_eq_flatten specRenderSection _ ?_ secs []) (by simp)
    intro acc sec
    unfold specRenderSection
    cases ht : sec.text with
    | none =>
      cases hl : sec.label <;> simp [ht, hl]
    | some t =>
      by_cases h0 : t = ""
      · cases hl : sec.label <;> simp [ht, hl, h0]
      · cases hl : sec.label <;> simp [ht, hl, h0, List.append_assoc]
  exact ⟨hparts, fun rec art h => by rw [(parse_fields h).1, hparts]⟩

/-- Witness for `abstract_assembly_amended` on a concrete parsed record. -/
theorem abstract_assembly_tests :
    (parseArticleElement recAbstractCex).map (fun a => a.abstract) =
      some (" ".intercalate ((recAbstractCex.abstractSections.map specRenderSection).flatten)) := by
  have h : parseArticleElement recAbstractCex =
      some { pmid := some "1", title := some "タイトルなし", abstract := "T L: T",
             authors := "著者不明", journal := "雑誌名不明", pubDate := "日付不明",
             doi := some "", url := "https://pubmed.ncbi.nlm.nih.gov/1/",
             summary := none } := by decide
  rw [h, Option.map_some']
  rw [← abstract_assembly_amended.2 recAbstractCex _ h]

theorem monthMap_find_eq {name num : String} (h : (name, num) ∈ monthMap) :
    monthMap.find? (fun e => decide (e.1 = name)) = some (name, num) := by
  fin_cases h <;> rfl

/-- C7 counterexample.  A record without a `PubDate` element parses to the
fixed fallback string `"日付不明"`, which is not of the `Y/M/D` form the
claim asserts for every raw record. -/
theorem missing_pubdate_not_normalized :
    (parseArticleElement recPubDateCex).map (fun a => a.pubDate) = some "日付不明" ∧
    ¬ ∃ y m d : String, "日付不明" = y ++ "/" ++ m ++ "/" ++ d := by
  refine ⟨by decide, ?_⟩
  rintro ⟨y, m, d, h⟩
  have hmem : '/' ∈ "日付不明".data := by
    rw [h]
    simp [String.data_append]
  exact absurd hmem (by decide)

/-- C7 amended.  On a record that has a `PubDate` element the parsed date is
`y ++ "/" ++ m ++ "/" ++ d` with missing `Year`/`Month`/`Day` components
replaced by the fallbacks `"2024"`/`"01"`/`"01"` and month names mapped
through the static table; a record without a `PubDate` element yields the
fixed fallback string `"日付不明"` instead. -/
theorem pubdate_normalization_amended (pd : RawPubDate) :
    (∃ y m d : String,
      extractPubDate (some pd) = y ++ "/" ++ m ++ "/" ++ d ∧
      (pd.year = none → y = "2024") ∧
      (pd.month = none → m = "01") ∧
      (pd.day = none → d = "01") ∧
      (∀ name num, pd.month = some (some name) → (name, num) ∈ monthMap → m = num)) ∧
    extractPubDate none = "日付不明" ∧
    (∀ rec art, parseArticleElement rec = some art →
      art.pubDate = extractPubDate rec.pubDate) := by
  refine ⟨?_, rfl, fun rec art h => (parse_fields h).2.2⟩
  refine ⟨pyFmt (yearField pd), pyFmt (monthField pd), pyFmt (dayField pd),
    rfl, ?_, ?_, ?_, ?_⟩
  · intro h
    unfold yearField
    rw [h]
    rfl
  · intro h
    unfold monthField rawMonthField
    rw [h]
    rfl
  · intro h
    unfold dayField
    rw [h]
    rfl
  · intro name num h1 h2
    unfold monthField rawMonthField
    rw [h1]
    simp only [monthMap_find_eq h2]
    rfl

/-- Witness for `pubdate_normalization_amended`: missing year and day fall
back, and the month name `"Mar"` maps to `"03"`. -/
theorem pubdate_normalization_tests :
    extractPubDate (some ⟨none, some (some "Mar"), none⟩) = "2024/03/01" := by
  obtain ⟨y, m, d, heq, hy, hmon, hd, hmap⟩ :=
    (pubdate_normalization_amended ⟨none, some (some "Mar"), none⟩).1
  rw [heq, hy rfl, hd rfl, hmap "Mar" "03" rfl (by decide)]
  decide

/-- C8 counterexample.  With four `Author` elements none of which parses a
display name, zero author names are extracted yet the output is the lone
`"et al."` marker, not the `"著者不明"` fallback the claim requires when
zero authors parse. -/
theorem unparsed_authors_et_al :
    (parseArticleElement recAuthorsCex).map (fun a => a.authors) = some "et al." ∧
    authorNames (List.replicate 4 ⟨none, none⟩) = [] ∧
    "et al." ≠ "著者不明" := by
  refine ⟨by decide, by decide, by decide⟩

/-- C8 amended.  Display names come only from the first three `Author`
elements; with a fourth or later element a single `"et al."` marker is
appended; and when zero author names parse and there are at most three
`Author` elements (so no marker was appended), the fixed unknown-author
fallback is emitted. -/
theorem author_extraction_amended (auths : List RawAuthor) :
    authorNames auths = authorNames (auths.take 3) ∧
    (auths.length > 3 →
      authorDisplay auths = ", ".intercalate (authorNames auths ++ ["et al."])) ∧
    (authorNames auths = [] → auths.length ≤ 3 → authorDisplay auths = "著者不明") ∧
    (∀ rec art, parseArticleElement rec = some art →
      art.authors = authorDisplay rec.authors) := by
  refine ⟨?_, ?_, ?_, fun rec art h => (parse_fields h).2.1⟩
  · simp [authorNames, List.take_take]
  · intro h
    simp [authorDisplay, h]
  · intro h hlen
    have h3 : ¬ auths.length > 3 := by omega
    simp [authorDisplay, h, h3]

/-- Witness for `author_extraction_amended`: one parsed author plus three
unparsable ones yields the name followed by the `"et al."` marker. -/
theorem author_extraction_tests :
    authorDisplay [⟨some (some "Doe"), some (some "Jane")⟩,
      ⟨none, none⟩, ⟨none, none⟩, ⟨none, none⟩] = "Jane Doe, et al." := by
  rw [(author_extraction_amended [⟨some (some "Doe"), some (some "Jane")⟩,
    ⟨none, none⟩, ⟨none, none⟩, ⟨none, none⟩]).2.1 (by decide)]
  rfl

theorem fourPoints_length (points : List String) : (fourPoints points).length = 4 := by
  unfold fourPoints
  by_cases h4 : points.length ≥ 4
  · rw [if_pos h4]
    simp only [List.length_take]
    omega
  · rw [if_neg h4]
    simp only [List.length_take, List.length_append, List.length_replicate]
    omega

/-- C9.  The empty-abstract and short-abstract paths return the fixed four
non-empty bullets without consulting the model; a model failure on the long
path returns the fixed four-line error fallback; and every call returns
exactly four bullet strings. -/
theorem summarize_always_four_bullets (title abstract : String)
    (model : String → Except Unit String) :
    summarizeAbstract model "" title = insufficientFallback ∧
    (abstract.length < 50 → summarizeAbstract model abstract title = insufficientFallback) ∧
    (insufficientFallback.length = 4 ∧ ∀ b ∈ insufficientFallback, b ≠ "") ∧
    (¬ (abstract = "" ∨ abstract.length < 50) →
      model (promptFor abstract title) = Except.error () →
      summarizeAbstract model abstract title = errorFallback) ∧
    (errorFallback.length = 4 ∧ ∀ b ∈ errorFallback, b ≠ "") ∧
    (summarizeAbstract model abstract title).length = 4 := by
  refine ⟨?_, ?_, ⟨rfl, by decide⟩, ?_, ⟨rfl, by decide⟩, ?_⟩
  · unfold summarizeAbstract
    rw [if_pos (Or.inl rfl)]
  · intro h
    unfold summarizeAbstract
    rw [if_pos (Or.inr h)]
  · intro h he
    unfold summarizeAbstract
    rw [if_neg h, he]
  · unfold summarizeAbstract
    by_cases h : abstract = "" ∨ abstract.length < 50
    · rw [if_pos h]
      rfl
    · rw [if_neg h]
      cases hm : model (promptFor abstract title) with
      | error e => rfl
      | ok text => exact fourPoints_length (bulletPoints text)

/-- Witness for `summarize_always_four_bullets`: the short-abstract and the
model-failure paths on concrete inputs. -/
theorem summarize_fallback_tests :
    summarizeAbstract (fun _ => Except.error ()) "short" "t" = insufficientFallback ∧
    summarizeAbstract (fun _ => Except.error ())
      "0123456789012345678901234567890123456789012345678901234567890" "t" =
      errorFallback := by
  constructor
  · exact (summarize_always_four_bullets "t" "short" (fun _ => Except.error ())).2.1
      (by decide)
  · exact (summarize_always_four_bullets "t"
      "0123456789012345678901234567890123456789012345678901234567890"
      (fun _ => Except.error ())).2.2.2.1 (by decide) rfl

-- Chunking and chunk-loop lemmas for `fetch_article_details`.

theorem chunked_flatten (l : List String) : (chunked l).flatten = l := by
  induction l using chunked.induct with
  | case1 =>
    rw [chunked]
    rfl
  | case2 x xs ih =>
    rw [chunked]
    simp only [List.flatten_cons, ih, List.take_append_drop]

theorem appendParsed_ok {recs : List RawArticle} {acc w : List Article}
    (h : appendParsed recs acc = Except.ok w) :
    w = acc ++ recs.filterMap parseArticleElement := by
  induction recs generalizing acc with
  | nil =>
    simp only [appendParsed, Except.ok.injEq] at h
    simp [← h]
  | cons r rs ih =>
    rw [appendParsed] at h
    split at h
    next hp =>
      rw [List.filterMap_cons, hp]
      exact ih h
    next article hp =>
      split at h
      next ht => exact absurd h (by simp)
      next ttl ht =>
        rw [List.filterMap_cons, hp, ih h]
        simp

theorem appendParsed_ok_of_titles {recs : List RawArticle} (acc : List Article)
    (hT : ∀ r ∈ recs, ∀ a, parseArticleElement r = some a → a.title ≠ none) :
    appendParsed recs acc = Except.ok (acc ++ recs.filterMap parseArticleElement) := by
  induction recs generalizing acc with
  | nil => simp [appendParsed]
  | cons r rs ih =>
    rw [appendParsed]
    split
    next hp =>
      rw [List.filterMap_cons, hp]
      exact ih acc (fun r' hr' => hT r' (List.mem_cons_of_mem _ hr'))
    next article hp =>
      split
      next ht => exact absurd ht (hT r (List.mem_cons_self _ _) article hp)
      next ttl ht =>
        rw [ih (acc ++ [article]) (fun r' hr' => hT r' (List.mem_cons_of_mem _ hr'))]
        simp [List.filterMap_cons, hp]

theorem fetchLoop_ok {respond : List String → Except Unit (List RawArticle)}
    {batches : List (List String)} {acc v : List Article}
    (h : fetchLoop respond batches acc = Except.ok v) :
    v = acc ++ (batches.map (chunkArticles respond)).flatten := by
  induction batches generalizing acc with
  | nil =>
    simp only [fetchLoop, Except.ok.injEq] at h
    simp [← h]
  | cons b rest ih =>
    rw [fetchLoop] at h
    split at h
    next e hr =>
      rw [ih h]
      simp [chunkArticles, hr]
    next recs hr =>
      split at h
      next e ha => exact absurd h (by simp)
      next acc2 ha =>
        rw [ih h, appendParsed_ok ha]
        simp [chunkArticles, hr]

theorem fetchLoop_ok_of_titles {respond : List String → Except Unit (List RawArticle)}
    (batches : List (List String)) (acc : List Article)
    (hT : ∀ batch ∈ batches, ∀ recs, respond batch = Except.ok recs →
          ∀ r ∈ recs, ∀ a, parseArticleElement r = some a → a.title ≠ none) :
    fetchLoop respond batches acc =
      Except.ok (acc ++ (batches.map (chunkArticles respond)).flatten) := by
  induction batches generalizing acc with
  | nil => simp [fetchLoop]
  | cons b rest ih =>
    rw [fetchLoop]
    split
    next e hr =>
      rw [ih acc (fun b' hb' => hT b' (List.mem_cons_of_mem _ hb'))]
      simp [chunkArticles, hr]
    next recs hr =>
      rw [appendParsed_ok_of_titles acc (hT b (List.mem_cons_self _ _) recs hr)]
      show fetchLoop respond rest (acc ++ recs.filterMap parseArticleElement) =
        Except.ok (acc ++ (List.map (chunkArticles respond) (b :: rest)).flatten)
      rw [ih (acc ++ recs.filterMap parseArticleElement)
        (fun b' hb' => hT b' (List.mem_cons_of_mem _ hb'))]
      simp [chunkArticles, hr]

theorem fetchArticleDetails_ok {pmidList : List String}
    {respond : List String → Except Unit (List RawArticle)} {out : List Article}
    (h : fetchArticleDetails pmidList respond = Except.ok out) :
    out = fetchDedup (((chunked pmidList).map (chunkArticles respond)).flatten) := by
  unfold fetchArticleDetails at h
  by_cases hl : pmidList = []
  · rw [if_pos hl] at h
    subst hl
    simp only [Except.ok.injEq] at h
    rw [← h, chunked]
    rfl
  · rw [if_neg hl] at h
    cases hf : fetchLoop respond (chunked pmidList) [] with
    | error e =>
      rw [hf] at h
      exact absurd h (by simp)
    | ok articles =>
      rw [hf] at h
      simp only [Except.ok.injEq] at h
      rw [← h, fetchLoop_ok hf]
      simp

-- The dict-based dedup loop equals first-occurrence deduplication.

theorem firstSeenDedup_cons (a : Article) (l : List Article) :
    firstSeenDedup (a :: l) =
      a :: firstSeenDedup (l.filter (fun b => decide (b.pmid ≠ a.pmid))) := by
  rw [firstSeenDedup.eq_def]

theorem foldl_dedupStep_eq (l : List Article) :
    ∀ acc : List (Option String × Article),
      (l.foldl dedupStep acc).map Prod.snd =
        acc.map Prod.snd ++
          firstSeenDedup (l.filter (fun b => !(acc.any (fun p => decide (p.1 = b.pmid))))) := by
  induction l with
  | nil =>
    intro acc
    simp [firstSeenDedup]
  | cons a rest ih =>
    intro acc
    rw [List.foldl_cons]
    by_cases hmem : acc.any (fun p => decide (p.1 = a.pmid))
    · have hstep : dedupStep acc a = acc := by simp [dedupStep, hmem]
      have hfa : (!(acc.any (fun p => decide (p.1 = a.pmid)))) = false := by simp [hmem]
      rw [hstep, ih acc, List.filter_cons, hfa]
      simp
    · have hstep : dedupStep acc a = acc ++ [(a.pmid, a)] := by simp [dedupStep, hmem]
      have hfa : (!(acc.any (fun p => decide (p.1 = a.pmid)))) = true := by simp [hmem]
      rw [hstep, ih (acc ++ [(a.pmid, a)]), List.filter_cons, hfa]
      simp only [if_pos rfl, if_true, List.map_append, List.map_cons, List.map_nil,
        List.append_assoc, List.singleton_append]
      rw [firstSeenDedup_cons]
      have hpred : rest.filter
            (fun b => !((acc ++ [(a.pmid, a)]).any (fun p => decide (p.1 = b.pmid)))) =
          (rest.filter (fun b => !(acc.any (fun p => decide (p.1 = b.pmid))))).filter
            (fun b => decide (b.pmid ≠ a.pmid)) := by
        rw [List.filter_filter]
        apply List.filter_congr
        intro b _
        by_cases h1 : a.pmid = b.pmid
        · simp [h1]
        · have h2 : ¬ b.pmid = a.pmid := fun h => h1 h.symm
          simp [List.any_append, h1, h2]
      rw [hpred]

theorem chunked_nil : chunked [] = [] := by
  rw [chunked]

theorem chunked_cons (x : String) (xs : List String) :
    chunked (x :: xs) = ((x :: xs).take 20) :: chunked ((x :: xs).drop 20) := by
  rw [chunked]

theorem firstSeenDedup_nil : firstSeenDedup [] = [] := by
  rw [firstSeenDedup.eq_def]

theorem fetchDedup_eq_firstSeen (l : List Article) : fetchDedup l = firstSeenDedup l := by
  unfold fetchDedup
  rw [foldl_dedupStep_eq l []]
  simp

theorem firstSeenDedup_mem {l : List Article} {a : Article}
    (h : a ∈ firstSeenDedup l) : a ∈ l := by
  induction l using firstSeenDedup.induct with
  | case1 =>
    rw [firstSeenDedup_nil] at h
    exact absurd h (List.not_mem_nil a)
  | case2 b rest ih =>
    rw [firstSeenDedup_cons] at h
    rcases List.mem_cons.mp h with rfl | h2
    · exact List.mem_cons_self _ _
    · exact List.mem_cons_of_mem _ (List.mem_of_mem_filter (ih h2))

theorem firstSeenDedup_nodup (l : List Article) :
    ((firstSeenDedup l).map (fun a => a.pmid)).Nodup := by
  induction l using firstSeenDedup.induct with
  | case1 =>
    rw [firstSeenDedup_nil]
    simp
  | case2 b rest ih =>
    rw [firstSeenDedup_cons]
    simp only [List.map_cons, List.nodup_cons]
    refine ⟨?_, ih⟩
    intro hmem
    rcases List.mem_map.mp hmem with ⟨c, hc, hpe⟩
    have hc2 := firstSeenDedup_mem hc
    have hq := List.of_mem_filter hc2
    simp only [decide_eq_true_eq] at hq
    exact hq hpe

theorem find?_filter_eq {α : Type} {p q : α → Bool} {l : List α} {a : α}
    (hpq : ∀ x, p x = true → q x = true)
    (h : (l.filter q).find? p = some a) : l.find? p = some a := by
  induction l with
  | nil => simp at h
  | cons x xs ih =>
    rw [List.filter_cons] at h
    by_cases hq : q x
    · rw [if_pos hq] at h
      by_cases hp : p x
      · rw [List.find?_cons_of_pos _ hp] at h
        rw [List.find?_cons_of_pos _ hp]
        exact h
      · rw [List.find?_cons_of_neg _ hp] at h
        rw [List.find?_cons_of_neg _ hp]
        exact ih h
    · rw [if_neg hq] at h
      have hp : ¬ p x = true := fun hpx => hq (hpq x hpx)
      rw [List.find?_cons_of_neg _ hp]
      exact ih h

theorem firstSeenDedup_find {l : List Article} {a : Article}
    (h : a ∈ firstSeenDedup l) :
    l.find? (fun b => decide (b.pmid = a.pmid)) = some a := by
  induction l using firstSeenDedup.induct with
  | case1 =>
    rw [firstSeenDedup_nil] at h
    exact absurd h (List.not_mem_nil a)
  | case2 b rest ih =>
    rw [firstSeenDedup_cons] at h
    rcases List.mem_cons.mp h with rfl | h2
    · exact List.find?_cons_of_pos _ (by simp)
    · have ha := firstSeenDedup_mem h2
      have hne : a.pmid ≠ b.pmid := by
        have hq := List.of_mem_filter ha
        simpa only [decide_eq_true_eq] using hq
      have hnb : ¬ ((fun c => decide (c.pmid = a.pmid)) b) = true := by
        simp
        exact fun hh => hne hh.symm
      rw [List.find?_cons_of_neg (p := fun c => decide (c.pmid = a.pmid)) rest hnb]
      refine find?_filter_eq ?_ (ih h2)
      intro x hx
      have hxa : x.pmid = a.pmid := of_decide_eq_true hx
      exact decide_eq_true (hxa ▸ hne)

theorem firstSeenDedup_exists {l : List Article} {p : Option String}
    (h : p ∈ l.map (fun a => a.pmid)) :
    ∃ a ∈ firstSeenDedup l, a.pmid = p := by
  induction l using firstSeenDedup.induct with
  | case1 => simp at h
  | case2 b rest ih =>
    rw [firstSeenDedup_cons]
    by_cases hp : p = b.pmid
    · exact ⟨b, List.mem_cons_self _ _, hp.symm⟩
    · have h2 : p ∈ (rest.filter (fun x => decide (x.pmid ≠ b.pmid))).map
          (fun a => a.pmid) := by
        rcases List.mem_map.mp h with ⟨c, hc, hcp⟩
        rcases List.mem_cons.mp hc with rfl | hc2
        · exact absurd hcp.symm hp
        · have hcb : c.pmid ≠ b.pmid := by
            rw [hcp]
            exact fun hh => hp hh
          exact List.mem_map.mpr ⟨c, List.mem_filter.mpr ⟨hc2, decide_eq_true hcb⟩, hcp⟩
      rcases ih h2 with ⟨a, ha, hap⟩
      exact ⟨a, List.mem_cons_of_mem _ ha, hap⟩

/-- C5.  When every parsed record carries a usable title (so the per-record
log line cannot raise), batch retrieval never aborts: a chunk whose payload
fails to parse contributes nothing, every other chunk is fetched and parsed,
and the result is exactly the deduplication of the concatenated
contributions of the successfully parsed chunks. -/
theorem chunk_failure_isolated (pmidList : List String)
    (respond : List String → Except Unit (List RawArticle))
    (hT : ∀ batch recs, respond batch = Except.ok recs →
          ∀ r ∈ recs, ∀ a, parseArticleElement r = some a → a.title ≠ none) :
    fetchArticleDetails pmidList respond =
      Except.ok (fetchDedup (((chunked pmidList).map (chunkArticles respond)).flatten)) := by
  unfold fetchArticleDetails
  by_cases hl : pmidList = []
  · rw [if_pos hl]
    subst hl
    rw [chunked_nil]
    rfl
  · rw [if_neg hl,
      fetchLoop_ok_of_titles (chunked pmidList) [] (fun b _ recs hr => hT b recs hr)]
    simp

/-- Witness for `chunk_failure_isolated`: a run whose single chunk fails to
parse returns zero articles rather than raising. -/
theorem chunk_failure_isolated_tests :
    fetchArticleDetails ["1"] (fun _ => Except.error ()) = Except.ok [] := by
  have h := chunk_failure_isolated ["1"] (fun _ => Except.error ())
    (fun batch recs hr => by simp at hr)
  rw [h, chunked_cons]
  rw [show (["1"] : List String).take 20 = ["1"] from rfl,
    show (["1"] : List String).drop 20 = [] from rfl, chunked_nil]
  rfl

/-- C4.  When batch retrieval succeeds, its output contains at most one
article per identifier (the output pmids are pairwise distinct), every kept
article is the first-encountered parse of its identifier in the concatenated
parsed records, every parsed identifier is represented, and the output is
exactly the first-seen-order deduplication of the parsed records. -/
theorem batch_retrieval_dedup_first (pmidList : List String)
    (respond : List String → Except Unit (List RawArticle)) (out : List Article)
    (h : fetchArticleDetails pmidList respond = Except.ok out) :
    ((out.map (fun a => a.pmid)).Nodup) ∧
    (∀ a ∈ out, (((chunked pmidList).map (chunkArticles respond)).flatten).find?
        (fun b => decide (b.pmid = a.pmid)) = some a) ∧
    (∀ p ∈ (((chunked pmidList).map (chunkArticles respond)).flatten).map (fun a => a.pmid),
        ∃ a ∈ out, a.pmid = p) ∧
    out = firstSeenDedup (((chunked pmidList).map (chunkArticles respond)).flatten) := by
  have hout : out =
      firstSeenDedup (((chunked pmidList).map (chunkArticles respond)).flatten) := by
    rw [fetchArticleDetails_ok h, fetchDedup_eq_firstSeen]
  subst hout
  exact ⟨firstSeenDedup_nodup _, fun a ha => firstSeenDedup_find ha,
    fun p hp => firstSeenDedup_exists hp, rfl⟩

/-- Witness for `batch_retrieval_dedup_first`: a response repeating pmid
`"9"` with different titles yields exactly the first parse. -/
theorem batch_retrieval_dedup_tests :
    fetchArticleDetails ["1"] (fun _ => Except.ok [recDupA, recDupB]) =
      Except.ok [artDupA] ∧
    (([artDupA].map (fun a => a.pmid)).Nodup) := by
  have hfetch : fetchArticleDetails ["1"] (fun _ => Except.ok [recDupA, recDupB]) =
      Except.ok [artDupA] := by
    unfold fetchArticleDetails
    rw [if_neg (by decide), chunked_cons]
    rw [show (["1"] : List String).take 20 = ["1"] from rfl,
      show (["1"] : List String).drop 20 = [] from rfl, chunked_nil]
    rfl
  exact ⟨hfetch,
    (batch_retrieval_dedup_first ["1"] (fun _ => Except.ok [recDupA, recDupB])
      [artDupA] hfetch).1⟩

-- Facts about the pipeline steps of `main()`.

theorem bootstrapStore_load (s : StoreState) (u : Int) :
    loadHistory (bootstrapStore s) u = loadHistory s u := by
  unfold bootstrapStore
  by_cases hs : s = StoreState.missing
  · subst hs
    rw [if_pos rfl]
    rfl
  · rw [if_neg hs]

theorem bootstrapStore_of_ne {s : StoreState} (hs : s ≠ StoreState.missing) :
    bootstrapStore s = s := by
  unfold bootstrapStore
  rw [if_neg hs]

theorem newIds_not_seen {s : StoreState} {t0 t : Int} {searchIds : List String}
    (ht : t0 ≤ t) {q : String} (hq : q ∈ newIds s t0 searchIds) :
    q ∉ loadHistory s t := by
  have h2 := (List.mem_filter.mp hq).2
  have h3 : q ∉ loadHistory s t0 := by simpa using h2
  exact loadHistory_antitone ht h3

theorem fetched_pmid_requested {pmidList : List String}
    {respond : List String → Except Unit (List RawArticle)} {out : List Article}
    (hresp : ∀ batch recs, respond batch = Except.ok recs →
        ∀ r ∈ recs, ∀ a, parseArticleElement r = some a → ∃ q ∈ batch, a.pmid = some q)
    (h : fetchArticleDetails pmidList respond = Except.ok out) :
    ∀ a ∈ out, ∃ q ∈ pmidList, a.pmid = some q := by
  intro a ha
  rw [fetchArticleDetails_ok h, fetchDedup_eq_firstSeen] at ha
  have ha2 := firstSeenDedup_mem ha
  rcases List.mem_flatten.mp ha2 with ⟨chunkL, hcl, hacl⟩
  rcases List.mem_map.mp hcl with ⟨batch, hbatch, rfl⟩
  unfold chunkArticles at hacl
  cases hrb : respond batch with
  | error e =>
    rw [hrb] at hacl
    simp at hacl
  | ok recs =>
    rw [hrb] at hacl
    simp only [List.mem_filterMap] at hacl
    rcases hacl with ⟨r, hr, hparse⟩
    rcases hresp batch recs hrb r hr a hparse with ⟨q, hqb, haq⟩
    refine ⟨q, ?_, haq⟩
    have hq2 : q ∈ (chunked pmidList).flatten := List.mem_flatten.mpr ⟨batch, hbatch, hqb⟩
    rwa [chunked_flatten] at hq2

theorem summarized_pmid {model : String → Except Unit String} {fetched : List Article}
    {a : Article} (ha : a ∈ summarizedArticles model fetched) :
    ∃ b ∈ fetched, a.pmid = b.pmid := by
  unfold summarizedArticles at ha
  rcases List.mem_map.mp ha with ⟨b, hb, rfl⟩
  exact ⟨b, hb, rfl⟩

/-- C1.  With a failing notification send, the run raises before the commit:
nothing is handed to `add_sent_articles`, the persisted mapping is unchanged
(identical whenever the store existed, and empty-as-loaded in the bootstrap
case), and — assuming the retrieval collaborator returns records only for the
requested identifiers — any subsequent load at or after the run's clock does
not contain the ids of the articles processed in the failed run. -/
theorem notify_failure_no_commit (s : StoreState) (t0 t : Int) (searchIds : List String)
    (respond : List String → Except Unit (List RawArticle))
    (model : String → Except Unit String)
    (hresp : ∀ batch recs, respond batch = Except.ok recs →
        ∀ r ∈ recs, ∀ a, parseArticleElement r = some a → ∃ q ∈ batch, a.pmid = some q)
    (ht : t0 ≤ t) :
    (runMain s t0 searchIds respond model false).ok = false ∧
    (runMain s t0 searchIds respond model false).committed = [] ∧
    (s ≠ StoreState.missing → (runMain s t0 searchIds respond model false).finalStore = s) ∧
    (∀ u, loadHistory (runMain s t0 searchIds respond model false).finalStore u =
      loadHistory s u) ∧
    (∀ a ∈ (runMain s t0 searchIds respond model false).processed, ∀ q, a.pmid = some q →
      q ∉ loadHistory (runMain s t0 searchIds respond model false).finalStore t) := by
  cases hst : getStats s with
  | error e =>
    have hr : runMain s t0 searchIds respond model false = ⟨false, s, [], [], [], []⟩ := by
      simp only [runMain, hst]
    rw [hr]
    exact ⟨rfl, rfl, fun _ => rfl, fun u => rfl,
      fun a ha => absurd ha (List.not_mem_nil a)⟩
  | ok st =>
    by_cases hnew : newIds s t0 searchIds = []
    · have hr : runMain s t0 searchIds respond model false =
          ⟨false, bootstrapStore s, [[]], [], [], newIds s t0 searchIds⟩ := by
        simp only [runMain, hst, if_pos hnew]
      rw [hr]
      exact ⟨rfl, rfl, fun hs => bootstrapStore_of_ne hs, fun u => bootstrapStore_load s u,
        fun a ha => absurd ha (List.not_mem_nil a)⟩
    · cases hf : fetchArticleDetails (newIds s t0 searchIds) respond with
      | error e =>
        have hr : runMain s t0 searchIds respond model false =
            ⟨false, bootstrapStore s, [], [], [], newIds s t0 searchIds⟩ := by
          simp only [runMain, hst, if_neg hnew, hf]
        rw [hr]
        exact ⟨rfl, rfl, fun hs => bootstrapStore_of_ne hs, fun u => bootstrapStore_load s u,
          fun a ha => absurd ha (List.not_mem_nil a)⟩
      | ok fetched =>
        have hr : runMain s t0 searchIds respond model false =
            ⟨false, bootstrapStore s, [summarizedArticles model fetched], [],
             summarizedArticles model fetched, newIds s t0 searchIds⟩ := by
          simp only [runMain, hst, if_neg hnew, hf]
          rfl
        rw [hr]
        refine ⟨rfl, rfl, fun hs => bootstrapStore_of_ne hs,
          fun u => bootstrapStore_load s u, ?_⟩
        intro a ha q haq
        replace ha : a ∈ summarizedArticles model fetched := ha
        show q ∉ loadHistory (bootstrapStore s) t
        rcases summarized_pmid ha with ⟨b, hb, hab⟩
        rcases fetched_pmid_requested hresp hf b hb with ⟨q2, hq2, hbq2⟩
        have hs2 : some q2 = some q := by
          rw [← hbq2, ← hab, haq]
        have hqq : q2 = q := Option.some.inj hs2
        rw [bootstrapStore_load]
        exact hqq ▸ newIds_not_seen ht hq2

/-- Witness for `notify_failure_no_commit` on a concrete run whose single
novel id `"200"` is fetched while the send fails: nothing is committed and
the store is untouched. -/
theorem notify_failure_tests :
    (runMain (StoreState.valid [("100", 0)]) 1 ["200"] (fun _ => Except.error ())
      (fun _ => Except.error ()) false).ok = false ∧
    (runMain (StoreState.valid [("100", 0)]) 1 ["200"] (fun _ => Except.error ())
      (fun _ => Except.error ()) false).committed = [] ∧
    (runMain (StoreState.valid [("100", 0)]) 1 ["200"] (fun _ => Except.error ())
      (fun _ => Except.error ()) false).finalStore = StoreState.valid [("100", 0)] := by
  have h := notify_failure_no_commit (StoreState.valid [("100", 0)]) 1 5 ["200"]
    (fun _ => Except.error ()) (fun _ => Except.error ())
    (fun batch recs hr => by simp at hr) (by decide)
  exact ⟨h.1, h.2.1, h.2.2.1 (by decide)⟩

/-- C3.  When the run reaches filtering (the store is readable) and the
filtered identifier list is empty, the run finishes without an exception,
processes zero novel articles, still hands one empty-list notification to
the sender, commits nothing, and leaves the persisted store untouched
(identical whenever it existed, and empty-as-loaded in the bootstrap
case). -/
theorem empty_filter_notify_no_commit (s : StoreState) (t0 : Int) (searchIds : List String)
    (respond : List String → Except Unit (List RawArticle))
    (model : String → Except Unit String)
    (hs : s ≠ StoreState.malformed)
    (hempty : newIds s t0 searchIds = []) :
    (runMain s t0 searchIds respond model true).ok = true ∧
    (runMain s t0 searchIds respond model true).processed = [] ∧
    (runMain s t0 searchIds respond model true).notifications = [[]] ∧
    (runMain s t0 searchIds respond model true).committed = [] ∧
    (s ≠ StoreState.missing → (runMain s t0 searchIds respond model true).finalStore = s) ∧
    (∀ u, loadHistory (runMain s t0 searchIds respond model true).finalStore u =
      loadHistory s u) := by
  have hex : ∃ st, getStats s = Except.ok st := by
    cases s with
    | missing => exact ⟨_, rfl⟩
    | malformed => exact absurd rfl hs
    | valid m => exact ⟨_, rfl⟩
  rcases hex with ⟨st, hst⟩
  have hr : runMain s t0 searchIds respond model true =
      ⟨true, bootstrapStore s, [[]], [], [], newIds s t0 searchIds⟩ := by
    simp only [runMain, hst, if_pos hempty]
  rw [hr]
  exact ⟨rfl, rfl, rfl, rfl, fun hs2 => bootstrapStore_of_ne hs2,
    fun u => bootstrapStore_load s u⟩

/-- Witness for `empty_filter_notify_no_commit`: id `"100"` was sent one day
ago, the search returns only `"100"`, and the run notifies with an empty
list and commits nothing. -/
theorem empty_filter_tests :
    (runMain (StoreState.valid [("100", 0)]) 1 ["100"] (fun _ => Except.error ())
      (fun _ => Except.error ()) true).ok = true ∧
    (runMain (StoreState.valid [("100", 0)]) 1 ["100"] (fun _ => Except.error ())
      (fun _ => Except.error ()) true).notifications = [[]] ∧
    (runMain (StoreState.valid [("100", 0)]) 1 ["100"] (fun _ => Except.error ())
      (fun _ => Except.error ()) true).committed = [] ∧
    (runMain (StoreState.valid [("100", 0)]) 1 ["100"] (fun _ => Except.error ())
      (fun _ => Except.error ()) true).finalStore = StoreState.valid [("100", 0)] := by
  have h := empty_filter_notify_no_commit (StoreState.valid [("100", 0)]) 1 ["100"]
    (fun _ => Except.error ()) (fun _ => Except.error ()) (by decide) (by decide)
  exact ⟨h.1, h.2.2.1, h.2.2.2.1, h.2.2.2.2.1 (by decide)⟩
